import Mathlib

/-!
# dpos: EAN-8 label encoder and receipt text parsers

A shallow embedding of the pure parts of `src/labelc.cpp` and `src/receipt2.cpp`.

Conventions of the embedding:

* `std::string` and `std::wstring` values are lists of characters (`List Char`), one list
  element per code unit; `size()` is `List.length`, `empty()` is `= []`.
* A read outside a fixed-size table (undefined behaviour in C++) is the `none` result of an
  `Option`.
* Drawing functions are represented by the ordered list of the texts their `DrawString`
  calls draw; a call with length `-1` draws its argument up to the first NUL character.
-/

namespace Dpos

/-! ## `labelc.cpp` -/

/-- The table `L_PATTERNS` local to `getEAN8Binary`. -/
def L_PATTERNS : List (List Char) :=
  ["0001101".toList, "0011001".toList, "0010011".toList, "0111101".toList, "0100011".toList,
   "0110001".toList, "0101111".toList, "0111011".toList, "0110111".toList, "0001011".toList]

/-- The table `R_PATTERNS` local to `getEAN8Binary`. -/
def R_PATTERNS : List (List Char) :=
  ["1110010".toList, "1100110".toList, "1101100".toList, "1000010".toList, "1011100".toList,
   "1001110".toList, "1010000".toList, "1000100".toList, "1001000".toList, "1110100".toList]

/-- The array read `table[k]` for a ten-entry table and an `int` index `k`: defined only
for `0 ≤ k < 10`. -/
def patternAt (table : List (List Char)) (k : Int) : Option (List Char) :=
  if 0 ≤ k then table.get? k.toNat else none

/-- The loop `for (i ...) binary += table[code[i] - '0'];` run over the indices `idxs`. -/
def appendPatterns (table : List (List Char)) (code : List Char) (binary : List Char)
    (idxs : List Nat) : Option (List Char) :=
  idxs.foldlM (fun acc i => do
    let ch ← code.get? i
    let pat ← patternAt table ((ch.toNat : Int) - ('0'.toNat : Int))
    pure (acc ++ pat)) binary

/-- The function `getEAN8Binary` of `labelc.cpp`. -/
def getEAN8Binary (code : List Char) : Option (List Char) :=
  if code.length ≠ 8 then some "".toList
  else do
    let binary := "101".toList
    let binary ← appendPatterns L_PATTERNS code binary [0, 1, 2, 3]
    let binary := binary ++ "01010".toList
    let binary ← appendPatterns R_PATTERNS code binary [4, 5, 6, 7]
    let binary := binary ++ "101".toList
    pure binary

/-- The lambda `[](unsigned char ch) { return ch >= '0' && ch <= '9'; }` of `isValidEAN8`. -/
def isDigitChar (ch : Char) : Bool :=
  decide ('0'.toNat ≤ ch.toNat) && decide (ch.toNat ≤ '9'.toNat)

/-- The function `isValidEAN8` of `labelc.cpp`, the gate `main` applies before printing. -/
def isValidEAN8 (value : List Char) : Bool :=
  decide (value.length = 8) && value.all isDigitChar

/-! ### Vocabulary of the statements about the encoder -/

/-- The value of a decimal digit character. -/
def digitValue (ch : Char) : Nat := ch.toNat - '0'.toNat

/-- The entry of the L table for digit value `d`. -/
def lPattern (d : Nat) : List Char := L_PATTERNS.getD d []

/-- The entry of the R table for digit value `d`. -/
def rPattern (d : Nat) : List Char := R_PATTERNS.getD d []

/-- The start positions at which `pat` occurs as a contiguous block of `s`. -/
def occurrences (pat s : List Char) : List Nat :=
  (List.range (s.length + 1)).filter (fun i => pat.isPrefixOf (s.drop i))

/-- Bitwise complement of a module character. -/
def complementBit (c : Char) : Char :=
  if c = '0' then '1' else if c = '1' then '0' else c

/-- The layout the specification gives for an 8-digit code: start guard, the L patterns of
digits 0..3, centre guard, the R patterns of digits 4..7, end guard. -/
def ean8Layout (s : List Char) : List Char :=
  "101".toList
    ++ lPattern (digitValue (s.getD 0 '0')) ++ lPattern (digitValue (s.getD 1 '0'))
    ++ lPattern (digitValue (s.getD 2 '0')) ++ lPattern (digitValue (s.getD 3 '0'))
    ++ "01010".toList
    ++ rPattern (digitValue (s.getD 4 '0')) ++ rPattern (digitValue (s.getD 5 '0'))
    ++ rPattern (digitValue (s.getD 6 '0')) ++ rPattern (digitValue (s.getD 7 '0'))
    ++ "101".toList

/-! ## `receipt2.cpp` -/

/-- The record `ReceiptItem`. -/
structure ReceiptItem where
  name : List Char
  qty : List Char
  unitPrice : List Char
  lineTotal : List Char
  deriving DecidableEq

/-- The record `PaymentInfo`. -/
structure PaymentInfo where
  label : List Char
  debtStamp : Bool
  isReturnFlow : Bool
  deriving DecidableEq

/-- The C library function `towlower` in the program's default "C" locale: the letters
`A`..`Z` go to `a`..`z`, every other character is unchanged. -/
def towlower (c : Char) : Char :=
  if 'A'.toNat ≤ c.toNat ∧ c.toNat ≤ 'Z'.toNat then Char.ofNat (c.toNat + 32) else c

/-- The function `toLower`: `transform(out.begin(), out.end(), out.begin(), towlower)`. -/
def toLower (s : List Char) : List Char := s.map towlower

/-- The library call `v.find(pat)`: the least index at which `pat` occurs in `s`, `none`
for `wstring::npos`. -/
def find : List Char → List Char → Option Nat
  | [], pat => if pat.isPrefixOf [] then some 0 else none
  | c :: t, pat => if pat.isPrefixOf (c :: t) then some 0 else (find t pat).map (· + 1)

/-- The function `parsePaymentInfo`. -/
def parsePaymentInfo (raw : List Char) : PaymentInfo :=
  let v := toLower raw
  if find v "refund_cash".toList ≠ none then ⟨"Qaytarish (Naqd)".toList, false, true⟩
  else if find v "refund_card".toList ≠ none then ⟨"Qaytarish (Karta)".toList, false, true⟩
  else if find v "debt_offset".toList ≠ none then ⟨"Qarzdan yechildi".toList, false, true⟩
  else if find v "mixed".toList ≠ none ∨ find v "aralash".toList ≠ none then
    ⟨"Aralash".toList, false, false⟩
  else if find v "naqd".toList ≠ none ∨ find v "cash".toList ≠ none then
    ⟨"Naqd".toList, false, false⟩
  else if find v "karta".toList ≠ none ∨ find v "card".toList ≠ none then
    ⟨"Karta".toList, false, false⟩
  else if find v "qarz".toList ≠ none ∨ find v "debt".toList ≠ none then
    ⟨"Qarz".toList, true, false⟩
  else ⟨if raw.isEmpty then "Naqd".toList else raw, false, false⟩

/-- The function `splitWide`: the loop state is the pair `(parts, cur)`. -/
def splitWide (s : List Char) (delim : Char) : List (List Char) :=
  let st := s.foldl
    (fun (st : List (List Char) × List Char) c =>
      if c = delim then (st.1 ++ [st.2], []) else (st.1, st.2 ++ [c]))
    ([], [])
  st.1 ++ [st.2]

/-- The function `parseItems`. -/
def parseItems (data : List Char) : List ReceiptItem :=
  if data.isEmpty then []
  else
    let rows := splitWide data ';'
    rows.foldl
      (fun items row =>
        if row.isEmpty then items
        else
          let parts := splitWide row '|'
          let item : ReceiptItem :=
            { name := if h : parts.length > 0 then parts[0] else []
              qty := if h : parts.length > 1 then parts[1] else []
              unitPrice := if h : parts.length > 2 then parts[2] else []
              lineTotal := if h : parts.length > 3 then parts[3] else [] }
          items ++ [item])
      []

/-- The priority list of the payment classifier: keyword groups with their results. -/
def paymentGroups : List (List (List Char) × PaymentInfo) :=
  [(["refund_cash".toList], ⟨"Qaytarish (Naqd)".toList, false, true⟩),
   (["refund_card".toList], ⟨"Qaytarish (Karta)".toList, false, true⟩),
   (["debt_offset".toList], ⟨"Qarzdan yechildi".toList, false, true⟩),
   (["mixed".toList, "aralash".toList], ⟨"Aralash".toList, false, false⟩),
   (["naqd".toList, "cash".toList], ⟨"Naqd".toList, false, false⟩),
   (["karta".toList, "card".toList], ⟨"Karta".toList, false, false⟩),
   (["qarz".toList, "debt".toList], ⟨"Qarz".toList, true, false⟩)]

/-- Whether a group has a keyword occurring as a substring of `v`. -/
def groupMatches (v : List Char) (g : List (List Char) × PaymentInfo) : Bool :=
  g.1.any (fun kw => decide (kw <:+: v))

/-- The reference classifier of the specification: lower-case the token, take the first
group of the priority list with a keyword occurring in it, otherwise fall back to the raw
token, or to the cash label for the empty token. -/
def classifyPayment (raw : List Char) : PaymentInfo :=
  match paymentGroups.find? (groupMatches (raw.map towlower)) with
  | some g => g.2
  | none => if raw = [] then ⟨"Naqd".toList, false, false⟩ else ⟨raw, false, false⟩

/-- A row of the items grammar read as a record: the fields split on `|`, a missing
trailing field empty, fields beyond the fourth ignored. -/
def rowToItem (row : List Char) : ReceiptItem :=
  let p := row.splitOn '|'
  ⟨p.getD 0 [], p.getD 1 [], p.getD 2 [], p.getD 3 []⟩

/-- The items grammar of the specification: the non-empty rows of the data split on `;`,
each read as a record. -/
def parseItemsSpec (data : List Char) : List ReceiptItem :=
  ((data.splitOn ';').filter (fun row => decide (row ≠ []))).map rowToItem

/-- The wire form of one item, `Name|Qty|UnitPrice|LineTotal`. -/
def serializeItem (it : ReceiptItem) : List Char :=
  it.name ++ ['|'] ++ it.qty ++ ['|'] ++ it.unitPrice ++ ['|'] ++ it.lineTotal

/-- The ItemsData wire form of a list of items: the rows joined with `;`. -/
def serializeItems (items : List ReceiptItem) : List Char :=
  [';'].intercalate (items.map serializeItem)

/-- A field that holds neither separator of the wire format. -/
@[reducible] def cleanField (f : List Char) : Prop := ';' ∉ f ∧ '|' ∉ f

theorem zero_toNat : '0'.toNat = 48 := rfl

theorem nine_toNat : '9'.toNat = 57 := rfl

theorem isDigitChar_iff (c : Char) : isDigitChar c = true ↔ 48 ≤ c.toNat ∧ c.toNat ≤ 57 := by
  simp [isDigitChar, zero_toNat, nine_toNat]

/-- A digit character is one of the ten characters `'0'`..`'9'`. -/
theorem digit_cases (c : Char) (h : isDigitChar c = true) :
    ∃ d : Fin 10, c = Char.ofNat (48 + d.val) := by
  rw [isDigitChar_iff] at h
  refine ⟨⟨c.toNat - 48, by omega⟩, ?_⟩
  have : 48 + (c.toNat - 48) = c.toNat := by omega
  simp only [this]
  exact (Char.ofNat_toNat c).symm

theorem digitValue_lt (c : Char) (h : isDigitChar c = true) : digitValue c < 10 := by
  rw [isDigitChar_iff] at h
  simp only [digitValue, zero_toNat]; omega

theorem digitValue_inj (a b : Char) (ha : isDigitChar a = true) (hb : isDigitChar b = true)
    (h : digitValue a = digitValue b) : a = b := by
  rw [isDigitChar_iff] at ha hb
  simp only [digitValue, zero_toNat] at h
  have hn : a.toNat = b.toNat := by omega
  rw [← Char.ofNat_toNat a, ← Char.ofNat_toNat b, hn]

theorem patternAt_L (c : Char) (h : isDigitChar c = true) :
    patternAt L_PATTERNS ((c.toNat : Int) - 48) = some (lPattern (digitValue c)) := by
  obtain ⟨d, rfl⟩ := digit_cases c h
  revert d; decide

theorem patternAt_R (c : Char) (h : isDigitChar c = true) :
    patternAt R_PATTERNS ((c.toNat : Int) - 48) = some (rPattern (digitValue c)) := by
  obtain ⟨d, rfl⟩ := digit_cases c h
  revert d; decide

/-- Outside the digits the table read is out of bounds. -/
theorem patternAt_none (table : List (List Char)) (htab : table.length = 10) (c : Char)
    (h : isDigitChar c = false) :
    patternAt table ((c.toNat : Int) - 48) = none := by
  have h2 : ¬ (48 ≤ c.toNat ∧ c.toNat ≤ 57) := by
    rw [← isDigitChar_iff]; simp [h]
  unfold patternAt
  split
  · rename_i hk
    rw [List.get?_eq_none]
    omega
  · rfl

theorem lPattern_length (d : Nat) (h : d < 10) : (lPattern d).length = 7 := by
  revert d; decide

theorem rPattern_length (d : Nat) (h : d < 10) : (rPattern d).length = 7 := by
  revert d; decide

theorem lPattern_inj (d e : Nat) (hd : d < 10) (he : e < 10) (h : lPattern d = lPattern e) :
    d = e := by
  have key : ∀ d < 10, ∀ e < 10, lPattern d = lPattern e → d = e := by decide
  exact key d hd e he h

theorem rPattern_inj (d e : Nat) (hd : d < 10) (he : e < 10) (h : rPattern d = rPattern e) :
    d = e := by
  have key : ∀ d < 10, ∀ e < 10, rPattern d = rPattern e → d = e := by decide
  exact key d hd e he h

theorem eq_of_length_eight (s : List Char) (h : s.length = 8) :
    ∃ a b c d e f g k, s = [a, b, c, d, e, f, g, k] := by
  match s, h with
  | [a, b, c, d, e, f, g, k], _ => exact ⟨a, b, c, d, e, f, g, k, rfl⟩

/-- The encoder on eight digit characters, as one concatenation. -/
theorem getEAN8Binary_eight (a b c d e f g k : Char)
    (ha : isDigitChar a = true) (hb : isDigitChar b = true) (hc : isDigitChar c = true)
    (hd : isDigitChar d = true) (he : isDigitChar e = true) (hf : isDigitChar f = true)
    (hg : isDigitChar g = true) (hk : isDigitChar k = true) :
    getEAN8Binary [a, b, c, d, e, f, g, k] =
      some ("101".toList ++ lPattern (digitValue a) ++ lPattern (digitValue b)
        ++ lPattern (digitValue c) ++ lPattern (digitValue d) ++ "01010".toList
        ++ rPattern (digitValue e) ++ rPattern (digitValue f) ++ rPattern (digitValue g)
        ++ rPattern (digitValue k) ++ "101".toList) := by
  simp [getEAN8Binary, appendPatterns, patternAt_L, patternAt_R, ha, hb, hc, hd, he, hf, hg, hk]

/-- The encoder never reads outside its tables exactly when it is given eight characters
that are all digits, or a string of another length. -/
theorem getEAN8Binary_eq_none_iff (code : List Char) :
    getEAN8Binary code = none ↔ code.length = 8 ∧ ∃ c ∈ code, isDigitChar c = false := by
  constructor
  · intro h
    by_cases hlen : code.length = 8
    · refine ⟨hlen, ?_⟩
      by_contra hall
      have hdig : ∀ c ∈ code, isDigitChar c = true := by
        intro c hc
        by_contra hcd
        exact hall ⟨c, hc, by simpa using hcd⟩
      obtain ⟨a, b, c, d, e, f, g, k, rfl⟩ := eq_of_length_eight code hlen
      rw [getEAN8Binary_eight a b c d e f g k (hdig a (by simp)) (hdig b (by simp))
        (hdig c (by simp)) (hdig d (by simp)) (hdig e (by simp)) (hdig f (by simp))
        (hdig g (by simp)) (hdig k (by simp))] at h
      exact Option.noConfusion h
    · simp [getEAN8Binary, hlen] at h
  · rintro ⟨hlen, x, hx, hxd⟩
    obtain ⟨a, b, c, d, e, f, g, k, rfl⟩ := eq_of_length_eight code hlen
    have hL := patternAt_none L_PATTERNS rfl
    have hR := patternAt_none R_PATTERNS rfl
    cases ha : isDigitChar a
    · simp [getEAN8Binary, appendPatterns, hL a ha]
    cases hb : isDigitChar b
    · simp [getEAN8Binary, appendPatterns, patternAt_L a ha, hL b hb]
    cases hc : isDigitChar c
    · simp [getEAN8Binary, appendPatterns, patternAt_L a ha, patternAt_L b hb, hL c hc]
    cases hd : isDigitChar d
    · simp [getEAN8Binary, appendPatterns, patternAt_L a ha, patternAt_L b hb, patternAt_L c hc,
        hL d hd]
    cases he : isDigitChar e
    · simp [getEAN8Binary, appendPatterns, patternAt_L a ha, patternAt_L b hb, patternAt_L c hc,
        patternAt_L d hd, hR e he]
    cases hf : isDigitChar f
    · simp [getEAN8Binary, appendPatterns, patternAt_L a ha, patternAt_L b hb, patternAt_L c hc,
        patternAt_L d hd, patternAt_R e he, hR f hf]
    cases hg : isDigitChar g
    · simp [getEAN8Binary, appendPatterns, patternAt_L a ha, patternAt_L b hb, patternAt_L c hc,
        patternAt_L d hd, patternAt_R e he, patternAt_R f hf, hR g hg]
    cases hk : isDigitChar k
    · simp [getEAN8Binary, appendPatterns, patternAt_L a ha, patternAt_L b hb, patternAt_L c hc,
        patternAt_L d hd, patternAt_R e he, patternAt_R f hf, patternAt_R g hg, hR k hk]
    exfalso
    simp only [List.mem_cons, List.mem_singleton, List.not_mem_nil, or_false] at hx
    rcases hx with rfl | rfl | rfl | rfl | rfl | rfl | rfl | rfl <;> simp_all

/-! ## Claims about `getEAN8Binary` -/

/-- C1: for every string `s` of exactly 8 decimal digits, `getEAN8Binary s` is the
67-character string start guard, four L patterns of the first four digits, centre guard,
four R patterns of the last four digits, end guard; the last digit is encoded like the
others (no checksum). The all-zero code gives the literal string of the specification. -/
theorem getEAN8Binary_layout (s : List Char) (hlen : s.length = 8)
    (hdig : ∀ c ∈ s, isDigitChar c = true) :
    getEAN8Binary s = some (ean8Layout s) ∧ (ean8Layout s).length = 67 ∧
    getEAN8Binary "00000000".toList =
      some ("101" ++ "0001101" ++ "0001101" ++ "0001101" ++ "0001101" ++ "01010"
        ++ "1110010" ++ "1110010" ++ "1110010" ++ "1110010" ++ "101").toList := by
  obtain ⟨a, b, c, d, e, f, g, k, rfl⟩ := eq_of_length_eight s hlen
  have ha := hdig a (by simp)
  have hb := hdig b (by simp)
  have hc := hdig c (by simp)
  have hd := hdig d (by simp)
  have he := hdig e (by simp)
  have hf := hdig f (by simp)
  have hg := hdig g (by simp)
  have hk := hdig k (by simp)
  refine ⟨?_, ?_, by decide⟩
  · rw [getEAN8Binary_eight a b c d e f g k ha hb hc hd he hf hg hk]
    simp [ean8Layout]
  · simp [ean8Layout, lPattern_length _ (digitValue_lt _ ha),
      lPattern_length _ (digitValue_lt _ hb), lPattern_length _ (digitValue_lt _ hc),
      lPattern_length _ (digitValue_lt _ hd), rPattern_length _ (digitValue_lt _ he),
      rPattern_length _ (digitValue_lt _ hf), rPattern_length _ (digitValue_lt _ hg),
      rPattern_length _ (digitValue_lt _ hk)]

/-- Instance of C1 at the code `12345678`. -/
theorem getEAN8Binary_layout_witness :
    getEAN8Binary "12345678".toList = some (ean8Layout "12345678".toList) ∧
    (ean8Layout "12345678".toList).length = 67 ∧
    getEAN8Binary "00000000".toList =
      some ("101" ++ "0001101" ++ "0001101" ++ "0001101" ++ "0001101" ++ "01010"
        ++ "1110010" ++ "1110010" ++ "1110010" ++ "1110010" ++ "101").toList :=
  getEAN8Binary_layout "12345678".toList (by decide) (by decide)

/-- Shape of the encoder's result on a valid code: the three guards around two blocks of
28 modules. -/
theorem getEAN8Binary_shape (s : List Char) (hlen : s.length = 8)
    (hdig : ∀ c ∈ s, isDigitChar c = true) :
    ∃ left right : List Char, left.length = 28 ∧ right.length = 28 ∧
      getEAN8Binary s =
        some ("101".toList ++ left ++ "01010".toList ++ right ++ "101".toList) := by
  obtain ⟨a, b, c, d, e, f, g, k, rfl⟩ := eq_of_length_eight s hlen
  have ha := hdig a (by simp)
  have hb := hdig b (by simp)
  have hc := hdig c (by simp)
  have hd := hdig d (by simp)
  have he := hdig e (by simp)
  have hf := hdig f (by simp)
  have hg := hdig g (by simp)
  have hk := hdig k (by simp)
  refine ⟨lPattern (digitValue a) ++ lPattern (digitValue b) ++ lPattern (digitValue c)
      ++ lPattern (digitValue d),
    rPattern (digitValue e) ++ rPattern (digitValue f) ++ rPattern (digitValue g)
      ++ rPattern (digitValue k), ?_, ?_, ?_⟩
  · simp [lPattern_length _ (digitValue_lt _ ha), lPattern_length _ (digitValue_lt _ hb),
      lPattern_length _ (digitValue_lt _ hc), lPattern_length _ (digitValue_lt _ hd)]
  · simp [rPattern_length _ (digitValue_lt _ he), rPattern_length _ (digitValue_lt _ hf),
      rPattern_length _ (digitValue_lt _ hg), rPattern_length _ (digitValue_lt _ hk)]
  · rw [getEAN8Binary_eight a b c d e f g k ha hb hc hd he hf hg hk]
    simp

theorem append_inj_seven {a a' x y : List Char} (ha : a.length = 7) (ha' : a'.length = 7)
    (h : a ++ x = a' ++ y) : a = a' ∧ x = y :=
  List.append_inj h (by rw [ha, ha'])

/-- C2 as stated fails: on the 8-character input `0000000a` the encoder does not return
the empty string; its read of `R_PATTERNS` is out of bounds. -/
theorem getEAN8Binary_nondigit_not_empty :
    ¬ (∀ code : List Char, (code.length ≠ 8 ∨ ∃ c ∈ code, isDigitChar c = false) →
        getEAN8Binary code = some []) := by
  intro h
  have h1 := h "0000000a".toList (Or.inr ⟨'a', by decide, by decide⟩)
  have h2 : getEAN8Binary "0000000a".toList = none := by decide
  rw [h2] at h1
  exact Option.noConfusion h1

/-- C2, amended: `getEAN8Binary` returns the empty string for every input whose length is
not 8 and leaves its tables exactly on the 8-character inputs that contain a non-digit;
`isValidEAN8` rejects every input whose length is not 8 or that contains a character
outside `'0'..'9'`, and every input it accepts is encoded to a 67-character pattern. -/
theorem getEAN8Binary_invalid (code : List Char) :
    (code.length ≠ 8 → getEAN8Binary code = some []) ∧
    (getEAN8Binary code = none ↔ code.length = 8 ∧ ∃ c ∈ code, isDigitChar c = false) ∧
    ((code.length ≠ 8 ∨ ∃ c ∈ code, isDigitChar c = false) → isValidEAN8 code = false) ∧
    (isValidEAN8 code = true → ∃ b, getEAN8Binary code = some b ∧ b.length = 67) := by
  refine ⟨?_, getEAN8Binary_eq_none_iff code, ?_, ?_⟩
  · intro hlen
    simp [getEAN8Binary, hlen]
  · rintro (hlen | ⟨c, hc, hcd⟩)
    · simp [isValidEAN8, hlen]
    · simp only [isValidEAN8, Bool.and_eq_false_iff, decide_eq_false_iff_not]
      right
      rw [← Bool.not_eq_true, List.all_eq_true]
      intro hall
      rw [hall c hc] at hcd
      exact Bool.noConfusion hcd
  · intro hv
    simp only [isValidEAN8, Bool.and_eq_true, decide_eq_true_eq, List.all_eq_true] at hv
    obtain ⟨left, right, hl, hr, hb⟩ := getEAN8Binary_shape code hv.1 hv.2
    exact ⟨_, hb, by simp [hl, hr]⟩

/-- Instance of the amended C2 at the too-short code `123`. -/
theorem getEAN8Binary_invalid_witness : getEAN8Binary "123".toList = some [] :=
  (getEAN8Binary_invalid "123".toList).1 (by decide)

/-- C3 as stated fails: in the pattern of the all-zero code the block `01010` starts at
module indices 29, 31 and 61, not only at the centre guard. -/
theorem center_guard_not_unique :
    ¬ (∀ s : List Char, s.length = 8 → (∀ c ∈ s, isDigitChar c = true) →
        ∃ b, getEAN8Binary s = some b ∧ "101".toList <+: b ∧ "101".toList <:+ b ∧
          occurrences "01010".toList b = [31]) := by
  intro h
  obtain ⟨b, hb, -, -, hocc⟩ := h "00000000".toList (by decide) (by decide)
  have h2 : (getEAN8Binary "00000000".toList).map (occurrences "01010".toList)
      = some [29, 31, 61] := by decide
  rw [hb, Option.map_some', hocc] at h2
  revert h2
  decide

/-- C3, amended: for every string `s` of 8 decimal digits, `getEAN8Binary s` has 67
modules, starts with `101`, ends with `101`, and the block `01010` occurs at module indices
31..35 (the centre guard). -/
theorem getEAN8Binary_guards (s : List Char) (hlen : s.length = 8)
    (hdig : ∀ c ∈ s, isDigitChar c = true) :
    ∃ b, getEAN8Binary s = some b ∧ b.length = 67 ∧ "101".toList <+: b ∧
      "101".toList <:+ b ∧ (b.drop 31).take 5 = "01010".toList ∧
      31 ∈ occurrences "01010".toList b := by
  obtain ⟨left, right, hl, hr, hb⟩ := getEAN8Binary_shape s hlen hdig
  have hdrop : List.drop 31 ("101".toList ++ left ++ "01010".toList ++ right ++ "101".toList)
      = "01010".toList ++ (right ++ "101".toList) := by
    have : ("101".toList ++ left ++ "01010".toList ++ right ++ "101".toList)
        = ("101".toList ++ left) ++ ("01010".toList ++ (right ++ "101".toList)) := by
      simp
    rw [this]
    exact List.drop_left' (by simp [hl])
  refine ⟨_, hb, by simp [hl, hr], ?_, ?_, ?_, ?_⟩
  · exact ⟨left ++ "01010".toList ++ right ++ "101".toList, by simp⟩
  · exact ⟨"101".toList ++ left ++ "01010".toList ++ right, by simp⟩
  · rw [hdrop]
    exact List.take_left' rfl
  · simp only [occurrences, List.mem_filter, List.mem_range]
    refine ⟨by simp [hl, hr], ?_⟩
    rw [hdrop, List.isPrefixOf_iff_prefix]
    exact List.prefix_append _ _

/-- Instance of the amended C3 at the code `40000000`. -/
theorem getEAN8Binary_guards_witness :
    ∃ b, getEAN8Binary "40000000".toList = some b ∧ b.length = 67 ∧ "101".toList <+: b ∧
      "101".toList <:+ b ∧ (b.drop 31).take 5 = "01010".toList ∧
      31 ∈ occurrences "01010".toList b :=
  getEAN8Binary_guards "40000000".toList (by decide) (by decide)

/-- C8: for every digit `d` in 0..9 both table entries have 7 characters, the R entry is
the bitwise complement of the L entry, and the L entry holds an odd number of `1`. -/
theorem patterns_complementary (d : Nat) (hd : d < 10) :
    ∃ l r, L_PATTERNS.get? d = some l ∧ R_PATTERNS.get? d = some r ∧
      l.length = 7 ∧ r.length = 7 ∧ r = l.map complementBit ∧ l.count '1' % 2 = 1 := by
  have key : ∀ d < 10, L_PATTERNS.get? d = some (lPattern d) ∧
      R_PATTERNS.get? d = some (rPattern d) ∧ (lPattern d).length = 7 ∧
      (rPattern d).length = 7 ∧ rPattern d = (lPattern d).map complementBit ∧
      (lPattern d).count '1' % 2 = 1 := by decide
  exact ⟨lPattern d, rPattern d, key d hd⟩

/-- Instance of C8 at digit 6. -/
theorem patterns_complementary_witness :
    ∃ l r, L_PATTERNS.get? 6 = some l ∧ R_PATTERNS.get? 6 = some r ∧
      l.length = 7 ∧ r.length = 7 ∧ r = l.map complementBit ∧ l.count '1' % 2 = 1 :=
  patterns_complementary 6 (by decide)

/-- C9: two distinct strings of 8 decimal digits have different bar patterns. -/
theorem getEAN8Binary_injective (s t : List Char) (hs : s.length = 8)
    (hsd : ∀ c ∈ s, isDigitChar c = true) (ht : t.length = 8)
    (htd : ∀ c ∈ t, isDigitChar c = true) (hne : s ≠ t) :
    getEAN8Binary s ≠ getEAN8Binary t := by
  obtain ⟨a, b, c, d, e, f, g, k, rfl⟩ := eq_of_length_eight s hs
  obtain ⟨a', b', c', d', e', f', g', k', rfl⟩ := eq_of_length_eight t ht
  have ha := hsd a (by simp)
  have hb := hsd b (by simp)
  have hc := hsd c (by simp)
  have hd := hsd d (by simp)
  have he := hsd e (by simp)
  have hf := hsd f (by simp)
  have hg := hsd g (by simp)
  have hk := hsd k (by simp)
  have ha' := htd a' (by simp)
  have hb' := htd b' (by simp)
  have hc' := htd c' (by simp)
  have hd' := htd d' (by simp)
  have he' := htd e' (by simp)
  have hf' := htd f' (by simp)
  have hg' := htd g' (by simp)
  have hk' := htd k' (by simp)
  intro heq
  rw [getEAN8Binary_eight a b c d e f g k ha hb hc hd he hf hg hk,
    getEAN8Binary_eight a' b' c' d' e' f' g' k' ha' hb' hc' hd' he' hf' hg' hk'] at heq
  have hL := fun x (hx : isDigitChar x = true) => lPattern_length _ (digitValue_lt x hx)
  have hR := fun x (hx : isDigitChar x = true) => rPattern_length _ (digitValue_lt x hx)
  have h0 := Option.some.inj heq
  simp only [List.append_assoc] at h0
  have h1 := List.append_cancel_left h0
  obtain ⟨e1, h2⟩ := append_inj_seven (hL a ha) (hL a' ha') h1
  obtain ⟨e2, h3⟩ := append_inj_seven (hL b hb) (hL b' hb') h2
  obtain ⟨e3, h4⟩ := append_inj_seven (hL c hc) (hL c' hc') h3
  obtain ⟨e4, h5⟩ := append_inj_seven (hL d hd) (hL d' hd') h4
  have h6 := List.append_cancel_left h5
  obtain ⟨e5, h7⟩ := append_inj_seven (hR e he) (hR e' he') h6
  obtain ⟨e6, h8⟩ := append_inj_seven (hR f hf) (hR f' hf') h7
  obtain ⟨e7, h9⟩ := append_inj_seven (hR g hg) (hR g' hg') h8
  obtain ⟨e8, -⟩ := append_inj_seven (hR k hk) (hR k' hk') h9
  have dl := fun x y (hx : isDigitChar x = true) (hy : isDigitChar y = true)
      (h : lPattern (digitValue x) = lPattern (digitValue y)) =>
    digitValue_inj x y hx hy (lPattern_inj _ _ (digitValue_lt x hx) (digitValue_lt y hy) h)
  have dr := fun x y (hx : isDigitChar x = true) (hy : isDigitChar y = true)
      (h : rPattern (digitValue x) = rPattern (digitValue y)) =>
    digitValue_inj x y hx hy (rPattern_inj _ _ (digitValue_lt x hx) (digitValue_lt y hy) h)
  apply hne
  rw [dl a a' ha ha' e1, dl b b' hb hb' e2, dl c c' hc hc' e3, dl d d' hd hd' e4,
    dr e e' he he' e5, dr f f' hf hf' e6, dr g g' hg hg' e7, dr k k' hk hk' e8]

/-- Instance of C9 at the codes `12345678` and `12345679`. -/
theorem getEAN8Binary_injective_witness :
    getEAN8Binary "12345678".toList ≠ getEAN8Binary "12345679".toList :=
  getEAN8Binary_injective "12345678".toList "12345679".toList (by decide) (by decide)
    (by decide) (by decide) (by decide)

/-! ## Facts about the receipt parsers -/

/-- The search `find` succeeds exactly when the pattern occurs as a substring. -/
theorem find_ne_none_iff (s pat : List Char) : find s pat ≠ none ↔ pat <:+: s := by
  induction s with
  | nil =>
    simp only [find, List.isPrefixOf_iff_prefix, List.prefix_nil, List.infix_nil]
    split <;> simp_all
  | cons c t ih =>
    simp only [find, List.isPrefixOf_iff_prefix]
    rw [List.infix_cons_iff]
    by_cases hp : pat <+: c :: t
    · simp [hp]
    · simp only [hp, if_false, false_or]
      rw [← ih]
      cases find t pat <;> simp

/-- The chain of `if`s of `parsePaymentInfo` computes the reference classifier. -/
theorem parsePaymentInfo_eq_classifyPayment (raw : List Char) :
    parsePaymentInfo raw = classifyPayment raw := by
  simp only [parsePaymentInfo, classifyPayment, find_ne_none_iff, toLower, List.isEmpty_iff]
  generalize raw.map towlower = v
  by_cases h0 : "refund_cash".toList <:+: v
  · simp_all [paymentGroups, groupMatches]
  by_cases h1 : "refund_card".toList <:+: v
  · simp_all [paymentGroups, groupMatches]
  by_cases h2 : "debt_offset".toList <:+: v
  · simp_all [paymentGroups, groupMatches]
  by_cases h3 : "mixed".toList <:+: v
  · simp_all [paymentGroups, groupMatches]
  by_cases h4 : "aralash".toList <:+: v
  · simp_all [paymentGroups, groupMatches]
  by_cases h5 : "naqd".toList <:+: v
  · simp_all [paymentGroups, groupMatches]
  by_cases h6 : "cash".toList <:+: v
  · simp_all [paymentGroups, groupMatches]
  by_cases h7 : "karta".toList <:+: v
  · simp_all [paymentGroups, groupMatches]
  by_cases h8 : "card".toList <:+: v
  · simp_all [paymentGroups, groupMatches]
  by_cases h9 : "qarz".toList <:+: v
  · simp_all [paymentGroups, groupMatches]
  by_cases h10 : "debt".toList <:+: v
  · simp_all [paymentGroups, groupMatches]
  by_cases hr : raw = []
  · simp_all [paymentGroups, groupMatches]
  · simp_all [paymentGroups, groupMatches]

theorem classifyPayment_of_some (raw : List Char) (g : List (List Char) × PaymentInfo)
    (h : paymentGroups.find? (groupMatches (raw.map towlower)) = some g) :
    classifyPayment raw = g.2 := by
  simp only [classifyPayment, h]

theorem classifyPayment_of_none (raw : List Char)
    (h : paymentGroups.find? (groupMatches (raw.map towlower)) = none) :
    classifyPayment raw
      = if raw = [] then ⟨"Naqd".toList, false, false⟩ else ⟨raw, false, false⟩ := by
  simp only [classifyPayment, h]

/-- The loop of `splitWide`, started in any state, in terms of the library split. -/
theorem splitWide_loop (delim : Char) (s : List Char) (parts : List (List Char))
    (cur : List Char) :
    (s.foldl
        (fun (st : List (List Char) × List Char) c =>
          if c = delim then (st.1 ++ [st.2], []) else (st.1, st.2 ++ [c]))
        (parts, cur)).1 ++
      [(s.foldl
        (fun (st : List (List Char) × List Char) c =>
          if c = delim then (st.1 ++ [st.2], []) else (st.1, st.2 ++ [c]))
        (parts, cur)).2]
      = parts ++ (s.splitOn delim).modifyHead (cur ++ ·) := by
  induction s generalizing parts cur with
  | nil => simp [List.splitOn, List.splitOnP_nil, List.modifyHead]
  | cons c t ih =>
    rw [List.foldl_cons]
    by_cases hc : c = delim
    · rw [if_pos hc, ih]
      simp only [List.splitOn, List.splitOnP_cons, hc, beq_self_eq_true, if_true]
      cases List.splitOnP (fun x => x == delim) t with
      | nil => simp [List.modifyHead]
      | cons hd tl => simp [List.modifyHead]
    · rw [if_neg hc, ih]
      have hb : (c == delim) = false := by simpa using hc
      simp only [List.splitOn, List.splitOnP_cons, hb]
      cases List.splitOnP (fun x => x == delim) t with
      | nil => simp [List.modifyHead]
      | cons hd tl => simp [List.modifyHead]

/-- The function `splitWide` is the split of a list on a separator. -/
theorem splitWide_eq_splitOn (s : List Char) (delim : Char) :
    splitWide s delim = s.splitOn delim := by
  unfold splitWide
  rw [splitWide_loop]
  cases h : s.splitOn delim with
  | nil => simp [List.modifyHead]
  | cons hd tl => simp [List.modifyHead]

theorem dite_getElem_eq_getD (l : List (List Char)) (n : Nat) :
    (if h : n < l.length then l[n] else []) = l[n]?.getD [] := by
  split
  · rename_i h
    simp [List.getElem?_eq_getElem h]
  · rename_i h
    simp [List.getElem?_eq_none (Nat.le_of_not_lt h)]

/-- The row loop of `parseItems`, started with any items collected so far. -/
theorem parseItems_loop (rows : List (List Char)) (items : List ReceiptItem) :
    rows.foldl
      (fun items row =>
        if row.isEmpty then items
        else
          let parts := splitWide row '|'
          let item : ReceiptItem :=
            { name := if h : parts.length > 0 then parts[0] else []
              qty := if h : parts.length > 1 then parts[1] else []
              unitPrice := if h : parts.length > 2 then parts[2] else []
              lineTotal := if h : parts.length > 3 then parts[3] else [] }
          items ++ [item])
      items
    = items ++ (rows.filter (fun row => decide (row ≠ []))).map rowToItem := by
  induction rows generalizing items with
  | nil => simp
  | cons row rest ih =>
    rw [List.foldl_cons]
    by_cases hr : row = []
    · subst hr
      simp only [List.isEmpty_nil, if_true]
      rw [ih]
      simp
    · have he : row.isEmpty = false := by
        cases row with
        | nil => exact absurd rfl hr
        | cons _ _ => rfl
      simp only [he, Bool.false_eq_true, if_false]
      rw [ih]
      simp only [hr, rowToItem, splitWide_eq_splitOn, ne_eq, not_false_eq_true, decide_True,
        List.filter_cons_of_pos, List.map_cons, List.append_assoc, List.singleton_append,
        List.append_cancel_left_eq, List.cons.injEq, and_true, ReceiptItem.mk.injEq,
        List.getD_eq_getElem?_getD]
      exact ⟨dite_getElem_eq_getD _ 0, dite_getElem_eq_getD _ 1, dite_getElem_eq_getD _ 2,
        dite_getElem_eq_getD _ 3⟩

/-- The function `parseItems` computes the items grammar of the specification. -/
theorem parseItems_eq_spec (data : List Char) : parseItems data = parseItemsSpec data := by
  unfold parseItems parseItemsSpec
  by_cases hd : data = []
  · subst hd
    simp [List.splitOn, List.splitOnP_nil]
  · have he : data.isEmpty = false := by
      cases data with
      | nil => exact absurd rfl hd
      | cons _ _ => rfl
    simp only [he, Bool.false_eq_true, if_false]
    rw [parseItems_loop, splitWide_eq_splitOn]
    simp

/-- C4: for every payment token, `parsePaymentInfo` equals the reference classifier (first
group, in priority order, with a keyword occurring in the lower-cased token; raw token or
the cash label as fallback), with the example tokens of the specification; a token holding
both `cash` and `debt` and no keyword of a higher group is classified as cash. -/
theorem parsePaymentInfo_classifies (raw : List Char) :
    parsePaymentInfo raw = classifyPayment raw ∧
    parsePaymentInfo "CASH".toList = ⟨"Naqd".toList, false, false⟩ ∧
    parsePaymentInfo "refund_card".toList = ⟨"Qaytarish (Karta)".toList, false, true⟩ ∧
    parsePaymentInfo "DEBT".toList = ⟨"Qarz".toList, true, false⟩ ∧
    (parsePaymentInfo "".toList).label = "Naqd".toList ∧
    ("cash".toList <:+: toLower raw → "debt".toList <:+: toLower raw →
      (∀ kw ∈ ["refund_cash".toList, "refund_card".toList, "debt_offset".toList,
        "mixed".toList, "aralash".toList], ¬ kw <:+: toLower raw) →
      parsePaymentInfo raw = ⟨"Naqd".toList, false, false⟩) := by
  refine ⟨parsePaymentInfo_eq_classifyPayment raw, by decide, by decide, by decide,
    by decide, ?_⟩
  intro hcash _ hno
  rw [parsePaymentInfo_eq_classifyPayment]
  simp only [classifyPayment, toLower] at *
  simp_all [paymentGroups, groupMatches]

/-- C5 as stated fails: `Visa` and `visa` are equal after lower-casing, no keyword occurs
in them, and each gets its own raw spelling as label. -/
theorem parsePaymentInfo_label_case_sensitive :
    ¬ (∀ a b : List Char, toLower a = toLower b →
        (parsePaymentInfo a).label = (parsePaymentInfo b).label ∧
        (parsePaymentInfo a).debtStamp = (parsePaymentInfo b).debtStamp ∧
        (parsePaymentInfo a).isReturnFlow = (parsePaymentInfo b).isReturnFlow) := by
  intro h
  have h1 := (h "Visa".toList "visa".toList (by decide)).1
  revert h1
  decide

/-- C5, amended: two tokens that are equal after lower-casing get the same `debtStamp` and
the same `isReturnFlow`, and the same label whenever a keyword occurs in the lower-cased
token; when no keyword occurs, the label of each is its own raw token (the cash label for
the empty token). -/
theorem parsePaymentInfo_case_insensitive (a b : List Char) (hab : toLower a = toLower b) :
    (parsePaymentInfo a).debtStamp = (parsePaymentInfo b).debtStamp ∧
    (parsePaymentInfo a).isReturnFlow = (parsePaymentInfo b).isReturnFlow ∧
    ((∃ g ∈ paymentGroups, groupMatches (toLower a) g = true) →
      (parsePaymentInfo a).label = (parsePaymentInfo b).label) ∧
    ((¬ ∃ g ∈ paymentGroups, groupMatches (toLower a) g = true) →
      (parsePaymentInfo a).label = (if a = [] then "Naqd".toList else a) ∧
      (parsePaymentInfo b).label = (if b = [] then "Naqd".toList else b)) := by
  rw [parsePaymentInfo_eq_classifyPayment, parsePaymentInfo_eq_classifyPayment]
  simp only [toLower] at hab ⊢
  cases hf : paymentGroups.find? (groupMatches (a.map towlower)) with
  | some g =>
    rw [classifyPayment_of_some a g hf, classifyPayment_of_some b g (hab ▸ hf)]
    refine ⟨rfl, rfl, fun _ => rfl, ?_⟩
    intro hno
    exact absurd ⟨g, List.mem_of_find?_eq_some hf, List.find?_some hf⟩ hno
  | none =>
    rw [classifyPayment_of_none a hf, classifyPayment_of_none b (hab ▸ hf)]
    have hnone := List.find?_eq_none.1 hf
    refine ⟨?_, ?_, ?_, ?_⟩
    · split <;> split <;> rfl
    · split <;> split <;> rfl
    · rintro ⟨g, hg, hm⟩
      exact absurd hm (hnone g hg)
    · intro _
      constructor <;> split <;> rfl

/-- Instance of the amended C5 at the tokens `Cash` and `CASH`. -/
theorem parsePaymentInfo_case_insensitive_witness :
    (parsePaymentInfo "Cash".toList).debtStamp = (parsePaymentInfo "CASH".toList).debtStamp ∧
    (parsePaymentInfo "Cash".toList).isReturnFlow
      = (parsePaymentInfo "CASH".toList).isReturnFlow ∧
    ((∃ g ∈ paymentGroups, groupMatches (toLower "Cash".toList) g = true) →
      (parsePaymentInfo "Cash".toList).label = (parsePaymentInfo "CASH".toList).label) ∧
    ((¬ ∃ g ∈ paymentGroups, groupMatches (toLower "Cash".toList) g = true) →
      (parsePaymentInfo "Cash".toList).label
        = (if "Cash".toList = [] then "Naqd".toList else "Cash".toList) ∧
      (parsePaymentInfo "CASH".toList).label
        = (if "CASH".toList = [] then "Naqd".toList else "CASH".toList)) :=
  parsePaymentInfo_case_insensitive "Cash".toList "CASH".toList (by decide)

/-! ## Claims about `parseItems` -/

/-- C6: for every input, `parseItems` gives, in order, one record for each non-empty row
of the data split on `;`, the fields of a row being its parts split on `|` (missing parts
empty, parts beyond the fourth ignored, nothing rewritten); empty data gives no items;
with the two example inputs of the specification. -/
theorem parseItems_grammar (data : List Char) :
    parseItems data = parseItemsSpec data ∧
    parseItems [] = [] ∧
    parseItems "Bread|2|1000|2000;Milk|1|1500|1500".toList =
      [⟨"Bread".toList, "2".toList, "1000".toList, "2000".toList⟩,
       ⟨"Milk".toList, "1".toList, "1500".toList, "1500".toList⟩] ∧
    parseItems "OnlyName".toList = [⟨"OnlyName".toList, [], [], []⟩] :=
  ⟨parseItems_eq_spec data, by decide, by decide, by decide⟩

/-- C10: for every list of items whose four fields hold neither `;` nor `|`, writing each
item as `name|qty|unitPrice|lineTotal`, joining the rows with `;` and applying `parseItems`
gives back the list, in order; the empty list goes through the empty string. -/
theorem parseItems_serializeItems (items : List ReceiptItem)
    (h : ∀ it ∈ items, cleanField it.name ∧ cleanField it.qty ∧ cleanField it.unitPrice ∧
      cleanField it.lineTotal) :
    parseItems (serializeItems items) = items ∧ serializeItems [] = [] := by
  refine ⟨?_, by decide⟩
  rw [parseItems_eq_spec]
  unfold parseItemsSpec serializeItems
  by_cases hnil : items = []
  · subst hnil
    decide
  · have hrows : ∀ l ∈ items.map serializeItem, ';' ∉ l := by
      intro l hl
      obtain ⟨it, hit, rfl⟩ := List.mem_map.1 hl
      obtain ⟨h1, h2, h3, h4⟩ := h it hit
      simp only [serializeItem, List.mem_append, List.mem_singleton, not_or]
      exact ⟨⟨⟨⟨⟨⟨h1.1, by decide⟩, h2.1⟩, by decide⟩, h3.1⟩, by decide⟩, h4.1⟩
    rw [List.splitOn_intercalate _ ';' hrows (by simpa using hnil)]
    have hfilter : (items.map serializeItem).filter (fun row => decide (row ≠ []))
        = items.map serializeItem := by
      rw [List.filter_eq_self]
      intro l hl
      obtain ⟨it, -, rfl⟩ := List.mem_map.1 hl
      simp [serializeItem]
    rw [hfilter, List.map_map]
    conv_rhs => rw [← List.map_id items]
    apply List.map_congr_left
    intro it hit
    obtain ⟨h1, h2, h3, h4⟩ := h it hit
    have hform : serializeItem it
        = ['|'].intercalate [it.name, it.qty, it.unitPrice, it.lineTotal] := by
      simp [serializeItem, List.intercalate]
    have hsplit : (serializeItem it).splitOn '|'
        = [it.name, it.qty, it.unitPrice, it.lineTotal] := by
      rw [hform]
      apply List.splitOn_intercalate
      · intro l hl
        simp only [List.mem_cons, List.mem_singleton, List.not_mem_nil, or_false] at hl
        rcases hl with rfl | rfl | rfl | rfl
        · exact h1.2
        · exact h2.2
        · exact h3.2
        · exact h4.2
      · simp
    simp only [Function.comp, rowToItem, hsplit, id]
    rfl

/-- Instance of C10 at the two items of the specification's example. -/
theorem parseItems_serializeItems_witness :
    parseItems (serializeItems
        [⟨"Bread".toList, "2".toList, "1000".toList, "2000".toList⟩,
         ⟨"Milk".toList, "1".toList, "1500".toList, "1500".toList⟩])
      = [⟨"Bread".toList, "2".toList, "1000".toList, "2000".toList⟩,
         ⟨"Milk".toList, "1".toList, "1500".toList, "1500".toList⟩] ∧
    serializeItems [] = [] :=
  parseItems_serializeItems _ (by
    intro it hit
    simp only [List.mem_cons, List.mem_singleton, List.not_mem_nil, or_false] at hit
    rcases hit with rfl | rfl <;> simp [cleanField])

/-! ## Claims about `drawHeadingLines` -/

end Dpos
